import Mathlib

/-!
A verification development for the helix-query-tool change-ingestion pipeline
(`src/helix_indexer.py`).  The Python source is shallowly embedded: Python
strings are Lean `String`s (a structure over `List Char`), the standard string
primitives used by the source (`splitlines`, `split('\n\n')`, `join`, `strip`,
`startswith`, substring containment, `Path.suffix`, `os.path.basename`,
`fnmatch`) are translated to executable char-list functions, mutable handler
state becomes explicit state passing, and code that may raise returns `Except`.
-/

/-- Python `str.isspace` characters relevant to `str.strip()`. -/
def isPySpace (c : Char) : Bool :=
  c == ' ' || c == '\t' || c == '\n' || c == '\r' || c == '\x0b' || c == '\x0c'

/-- Python `str.strip()`: drop whitespace from both ends. -/
def pyStrip (s : String) : String :=
  String.mk (((s.data.dropWhile isPySpace).reverse.dropWhile isPySpace).reverse)

/-- Python `str.lower()` (per-character, as for the ASCII extensions the
pipeline sees). -/
def pyLower (s : String) : String :=
  String.mk (s.data.map Char.toLower)

/-- Python `str.splitlines()` restricted to `'\n'` line boundaries (the only
line terminator occurring in this repository's content model): no trailing
empty line for a trailing newline, and `""` yields `[]`. -/
def splitlinesChars : List Char → List (List Char)
  | [] => []
  | '\n' :: rest => [] :: splitlinesChars rest
  | c :: rest =>
    match splitlinesChars rest with
    | [] => [[c]]
    | g :: gs => (c :: g) :: gs

/-- The `content.splitlines()` at the `String` level. -/
def pySplitlines (s : String) : List String :=
  (splitlinesChars s.data).map String.mk

/-- Python `str.split('\n\n')`: non-overlapping left-to-right splitting on the
two-character separator; `""` yields `[""]`. -/
def splitParChars : List Char → List (List Char)
  | [] => [[]]
  | '\n' :: '\n' :: rest => [] :: splitParChars rest
  | c :: rest =>
    match splitParChars rest with
    | [] => [[c]]
    | g :: gs => (c :: g) :: gs

/-- The `content.split('\n\n')` at the `String` level. -/
def pySplitPar (s : String) : List String :=
  (splitParChars s.data).map String.mk

/-- Python `sep.join(parts)`. -/
def joinSep (sep : String) : List String → String
  | [] => ""
  | [x] => x
  | x :: y :: ys => x ++ sep ++ joinSep sep (y :: ys)

/-- Char-level join with the `"\n\n"` paragraph separator (mirror of
`joinSep "\n\n"` used to reason about `splitParChars`). -/
def joinParChars : List (List Char) → List Char
  | [] => []
  | [g] => g
  | g :: g' :: gs => g ++ '\n' :: '\n' :: joinParChars (g' :: gs)

/-- The final path component: `os.path.basename` / `pathlib.Path(...).name`
for the slash-free-tail paths handled by the pipeline. -/
def afterLastSlash (p : List Char) : List Char :=
  (p.reverse.takeWhile (fun c => c != '/')).reverse

/-- Index of the last `'.'` in a name (`str.rfind('.')` when it succeeds). -/
def pyRfindDot (name : List Char) : Option Nat :=
  match name.reverse.findIdx? (fun c => c == '.') with
  | none => none
  | some j => some (name.length - 1 - j)

/-- The `pathlib.PurePath.suffix` on the final component: the part from the last
dot on, unless the dot is leading or trailing. -/
def pySuffixChars (name : List Char) : List Char :=
  match pyRfindDot name with
  | none => []
  | some i => if 0 < i ∧ i < name.length - 1 then name.drop i else []

/-- The `Path(filepath).suffix` as a `String`. -/
def pySuffixS (p : String) : String :=
  String.mk (pySuffixChars (afterLastSlash p.data))

/-- The `str(Path(filepath).parent)` for the simple absolute/relative paths the
pipeline sees. -/
def pathParent (p : String) : String :=
  let pre := (p.data.reverse.dropWhile (fun c => c != '/')).reverse
  if pre = [] then "."
  else if pre = ['/'] then "/"
  else String.mk pre.dropLast

/-- Glob matching worker, structurally recursive on a fuel bound (every call
shrinks `pattern.length + s.length`, so `pattern.length + s.length + 1` fuel
is always enough). -/
def globMatchFuel : Nat → List Char → List Char → Bool
  | 0, _, _ => false
  | _ + 1, [], s => s.isEmpty
  | fuel + 1, '*' :: ps, [] => globMatchFuel fuel ps []
  | fuel + 1, '*' :: ps, c :: cs =>
    globMatchFuel fuel ps (c :: cs) || globMatchFuel fuel ('*' :: ps) cs
  | fuel + 1, '?' :: ps, _ :: cs => globMatchFuel fuel ps cs
  | _ + 1, _ :: _, [] => false
  | fuel + 1, p :: ps, c :: cs => (p == c) && globMatchFuel fuel ps cs

/-- The `fnmatch.fnmatch` for the glob subset used by the exclusion patterns
(`*` and `?` wildcards plus literal characters; whole-string anchored,
case-sensitive as on POSIX). -/
def globMatch (pattern s : List Char) : Bool :=
  globMatchFuel (pattern.length + s.length + 1) pattern s

/-! ## Data model (`IndexerConfig`, metadata, events, handler state) -/

/-- The `IndexerConfig` with the `__post_init__` defaults. -/
structure IndexerConfig where
  helix_host : String := "localhost"
  helix_port : Int := 6969
  watch_paths : List String := ["/home", "/etc/nixos"]
  exclude_patterns : List String := ["*.swp", "*.tmp", "*~", ".git/*", "node_modules/*"]
  batch_size : Nat := 10
  log_level : String := "INFO"
deriving DecidableEq

/-- The metadata dict assembled in `FileChangeHandler.index_file`. -/
structure DocumentMetadata where
  filepath : String
  filename : String
  filetype : String
  size : Nat
  indexed_at : Int
  directory : String
deriving DecidableEq

/-- A pyinotify event as consumed by `process_default`: its `maskname` and
`pathname`. -/
structure Event where
  maskname : String
  pathname : String
deriving DecidableEq

/-- The mutable state of `FileChangeHandler`: exactly the fields assigned in
`__init__` (besides the immutable client/config references). -/
structure Handler where
  pending_files : List String
  last_batch_time : Int
deriving DecidableEq

/-- The filesystem as seen by `open(...).read()`: reading a path either
returns its content or raises (an `IOError` message). -/
def FS : Type := String → Except String String

/-! ## `HelixClient` chunking strategies -/

/-- The `path_obj.suffix[1:] if path_obj.suffix else "unknown"` (the `filetype`
metadata field; note the source does NOT lower-case here). -/
def pyFiletype (filepath : String) : String :=
  match pySuffixChars (afterLastSlash filepath.data) with
  | [] => "unknown"
  | _ :: rest => String.mk rest

/-- The structural keyword signals of `_chunk_code`. -/
def codeKeywords : List String := ["def ", "class ", "function ", "\x7b"]

/-- Python's `needle in hay` substring test, by scanning every start
position. -/
def isSubChars (needle : List Char) : List Char → Bool
  | [] => needle.isEmpty
  | h :: t => needle.isPrefixOf (h :: t) || isSubChars needle t

/-- The `any(keyword in stripped for keyword in [...])`: substring containment. -/
def hasCodeKeyword (stripped : String) : Bool :=
  codeKeywords.any (fun k => isSubChars k.data stripped.data)

/-- One iteration of the `_chunk_code` line loop.  State: chunks emitted so
far and the current chunk, both as line groups (`'\n'.join` is applied per
group when the result list is assembled). -/
def codeStep (st : List (List String) × List String) (line : String) :
    List (List String) × List String :=
  let (chunks, current) := st
  let stripped := pyStrip line
  if stripped = "" then (chunks, current ++ [line])
  else
    let st' :=
      if hasCodeKeyword stripped then
        (if current = [] then chunks else chunks ++ [current], [line])
      else (chunks, current ++ [line])
    if st'.2.length > 50 then (st'.1 ++ [st'.2], []) else st'

/-- The line groups accumulated by `_chunk_code` (trailing group flushed). -/
def codeGroups (lines : List String) : List (List String) :=
  let r := lines.foldl codeStep ([], [])
  if r.2 = [] then r.1 else r.1 ++ [r.2]

/-- The `HelixClient._chunk_code` (`ext` is accepted and unused, as in the
source); each group is joined with `'\n'` and blank chunks are filtered. -/
def _chunk_code (content : String) (ext : String) : List String :=
  let _ := ext
  ((codeGroups (pySplitlines content)).map (joinSep "\n")).filter
    (fun c => pyStrip c ≠ "")

/-- Python `str.startswith`. -/
def pyStartsWith (s pre : String) : Bool :=
  pre.data.isPrefixOf s.data

/-- One iteration of the `_chunk_config` line loop. -/
def configStep (st : List (List String) × List String) (line : String) :
    List (List String) × List String :=
  let (chunks, current) := st
  let stripped := pyStrip line
  if stripped ≠ "" ∧ ¬ pyStartsWith line " " ∧ ¬ pyStartsWith line "#" then
    (if current = [] then chunks else chunks ++ [current], [line])
  else (chunks, current ++ [line])

/-- The line groups accumulated by `_chunk_config` (trailing group flushed). -/
def configGroups (lines : List String) : List (List String) :=
  let r := lines.foldl configStep ([], [])
  if r.2 = [] then r.1 else r.1 ++ [r.2]

/-- The `HelixClient._chunk_config`. -/
def _chunk_config (content : String) : List String :=
  ((configGroups (pySplitlines content)).map (joinSep "\n")).filter
    (fun c => pyStrip c ≠ "")

/-- One iteration of the `_chunk_semantic` paragraph loop.  State: emitted
paragraph groups, current group, `current_size` (sum of paragraph lengths,
`'\n\n'.join` separators not counted — as in the source). -/
def semStep (max_size : Nat) (st : List (List String) × List String × Nat)
    (para : String) : List (List String) × List String × Nat :=
  let (chunks, current, size) := st
  let para_size := para.length
  let (chunks, current, size) :=
    if size + para_size > max_size ∧ current ≠ [] then (chunks ++ [current], [], 0)
    else (chunks, current, size)
  (chunks, current ++ [para], size + para_size)

/-- The paragraph groups accumulated by `_chunk_semantic`'s greedy loop. -/
def packParas (max_size : Nat) (paras : List String) : List (List String) :=
  let r := paras.foldl (semStep max_size) ([], [], 0)
  if r.2.1 = [] then r.1 else r.1 ++ [r.2.1]

/-- The `HelixClient._chunk_semantic` (no blank-chunk filter in this strategy). -/
def _chunk_semantic (content : String) (max_size : Nat := 2000) : List String :=
  if content.length ≤ max_size then [content]
  else (packParas max_size (pySplitPar content)).map (joinSep "\n\n")

/-- The `HelixClient._chunk_content`: strategy dispatch on the lower-cased
extension. -/
def _chunk_content (content : String) (filepath : String) : List String :=
  let file_ext := pyLower (pySuffixS filepath)
  if file_ext ∈ [".nix", ".py", ".rs", ".go", ".js", ".ts"] then
    _chunk_code content file_ext
  else if file_ext ∈ [".yaml", ".yml", ".toml", ".json"] then
    _chunk_config content
  else
    _chunk_semantic content

/-- The `HelixClient.index_document`: every step of its `try` block (logging,
chunking, and the loop that assembles per-chunk metadata for the simulated
submission) is a total operation, so the translation returns `true`
unconditionally; the `except` branch (`return False`) has no reachable
counterpart. -/
def index_document (filepath content : String) (metadata : DocumentMetadata) :
    Bool :=
  let chunks := _chunk_content content filepath
  let _submissions := chunks.enum.map
    (fun ic => (ic.2, metadata, ic.1, chunks.length))
  true

/-! ## `FileChangeHandler` pipeline -/

/-- The metadata dict built in `index_file` from the path, the content length
and the current time. -/
def fileMetadata (filepath content : String) (now : Int) : DocumentMetadata :=
  { filepath := filepath
    filename := String.mk (afterLastSlash filepath.data)
    filetype := pyFiletype filepath
    size := content.length
    indexed_at := now
    directory := pathParent filepath }

/-- Per-spec comparison value for the `filetype` field: "lower-cased
extension without dot, or unknown". -/
def specFiletype (filepath : String) : String :=
  match pySuffixChars (afterLastSlash filepath.data) with
  | [] => "unknown"
  | _ :: rest => pyLower (String.mk rest)

/-- What happened inside one `index_file` call. -/
inductive IndexFileResult
  | skippedEmpty
  | indexedOk
  | indexedFailed
  | errorLogged (msg : String)
deriving DecidableEq

/-- The `try` block of `FileChangeHandler.index_file`: read the file, skip
blank content, build metadata, submit via `index_document` (logging either
way). -/
def index_file_body (fs : FS) (now : Int) (filepath : String) :
    Except String IndexFileResult := do
  let content ← fs filepath
  if pyStrip content = "" then pure IndexFileResult.skippedEmpty
  else
    let metadata := fileMetadata filepath content now
    let success := index_document filepath content metadata
    if success then pure IndexFileResult.indexedOk
    else pure IndexFileResult.indexedFailed

/-- The `FileChangeHandler.index_file`: its whole body sits in a `try` whose
`except` logs the error and returns normally, embedded as the outer `match`
— so the function never propagates an error. -/
def index_file (fs : FS) (now : Int) (filepath : String) :
    Except String IndexFileResult :=
  match index_file_body fs now filepath with
  | Except.ok r => Except.ok r
  | Except.error e => Except.ok (IndexFileResult.errorLogged e)

/-- The `FileChangeHandler.process_batch`: early-return when nothing is pending;
otherwise attempt `index_file` on a snapshot of the pending set, discarding a
path unless the call raised, then reset `last_batch_time`. -/
def process_batch (fs : FS) (now : Int) (h : Handler) : Handler :=
  if h.pending_files = [] then h
  else
    let pending' := h.pending_files.filter (fun fp =>
      match index_file fs now fp with
      | Except.ok _ => false
      | Except.error _ => true)
    { pending_files := pending', last_batch_time := now }

/-- The `FileChangeHandler.should_ignore_file`: any exclusion pattern matching
the basename or the full path. -/
def should_ignore_file (cfg : IndexerConfig) (filepath : String) : Bool :=
  cfg.exclude_patterns.any (fun pat =>
    globMatch pat.data (afterLastSlash filepath.data) || globMatch pat.data filepath.data)

/-- The `set.add` on the pending set, modelled as a duplicate-free list. -/
def insertPath (p : String) (l : List String) : List String :=
  if p ∈ l then l else l ++ [p]

/-- The accepted `maskname`s of `process_default`. -/
def acceptedMasks : List String := ["IN_MODIFY", "IN_CREATE", "IN_MOVED_TO"]

/-- The `FileChangeHandler.process_default`: kind filter, exclusion filter,
add to the pending batch, then flush when the size or (lazy) time threshold
is met.  The returned `Bool` records whether `process_batch` was invoked. -/
def process_default (cfg : IndexerConfig) (fs : FS) (now : Int) (h : Handler)
    (ev : Event) : Handler × Bool :=
  if ev.maskname ∉ acceptedMasks then (h, false)
  else if should_ignore_file cfg ev.pathname then (h, false)
  else
    let h' : Handler :=
      { h with pending_files := insertPath ev.pathname h.pending_files }
    if h'.pending_files.length ≥ cfg.batch_size ∨ now - h.last_batch_time > 5
    then (process_batch fs now h', true)
    else (h', false)

/-- A filesystem on which every read raises. -/
def fsUnreadable : FS := fun _ => Except.error "IOError"

/-- A filesystem on which every read returns a small Python source text. -/
def fsSmallPy : FS := fun _ => Except.ok "print(1)\n"

/-- The input of the C6 counterexample: fifty non-blank lines, one blank
line, one more non-blank line. -/
def chunkCodeCexContent : String :=
  joinSep "\n" (List.replicate 50 "x" ++ [""] ++ ["x"])

/-- Invariant of the `_chunk_semantic` greedy loop: `current_size` tracks the
sum of the current group's paragraph lengths, emitted groups are non-empty,
and every group is a single paragraph or has paragraph lengths summing to at
most the threshold. -/
def SemInv (m : Nat) (st : List (List String) × List String × Nat) : Prop :=
  st.2.2 = (st.2.1.map String.length).sum ∧
  (∀ g ∈ st.1, g ≠ []) ∧
  (∀ g ∈ st.1, g.length = 1 ∨ (g.map String.length).sum ≤ m) ∧
  (st.2.1.length ≤ 1 ∨ (st.2.1.map String.length).sum ≤ m)

/-- The input of the C7 counterexample: two paragraphs of 999 and 1000
characters separated by a blank line — 2001 characters in total. -/
def semCexContent : String :=
  String.mk (List.replicate 999 'a') ++ "\n\n" ++ String.mk (List.replicate 1000 'b')

/-! ## Helper lemmas -/

/-- The `index_file` completes normally on every input: its internal `except`
swallows any error of the body. -/
lemma index_file_isOk (fs : FS) (now : Int) (p : String) :
    ∃ r, index_file fs now p = Except.ok r := by
  unfold index_file
  cases index_file_body fs now p <;> exact ⟨_, rfl⟩

lemma filter_false_eq_nil {α : Type} (p : α → Bool) (l : List α)
    (hp : ∀ a ∈ l, p a = false) : l.filter p = [] := by
  induction l with
  | nil => rfl
  | cons x xs ih =>
    simp only [List.filter, hp x (List.mem_cons_self x xs)]
    exact ih fun a ha => hp a (List.mem_cons_of_mem x ha)

/-- Every flush with a non-empty pending set removes every pending path
(regardless of per-file outcomes) and resets the timestamp. -/
lemma process_batch_clears (fs : FS) (now : Int) (h : Handler)
    (hne : h.pending_files ≠ []) : process_batch fs now h = ⟨[], now⟩ := by
  unfold process_batch
  rw [if_neg hne]
  have hfilter : h.pending_files.filter (fun fp =>
      match index_file fs now fp with
      | Except.ok _ => false
      | Except.error _ => true) = [] := by
    apply filter_false_eq_nil
    intro a _
    obtain ⟨r, hr⟩ := index_file_isOk fs now a
    simp [hr]
  rw [hfilter]

/-! ## Claim theorems -/

/-- Claim C1 (code bug): on a flush where reading the pending path raises,
the path is nevertheless removed from the pending set — `index_file` catches
every exception internally, so `process_batch`'s `discard` always runs and
its `except` branch is dead.  The claim (and the spec) say a failing path
remains pending and is retried. -/
theorem claim1_failed_read_path_still_removed :
    fsUnreadable "/tmp/x.py" = Except.error "IOError" ∧
    process_batch fsUnreadable 100 ⟨["/tmp/x.py"], 0⟩ = ⟨[], 100⟩ :=
  ⟨rfl, by decide⟩

/-- Claim C2 counterexample: starting from the same handler state with
`/tmp/x.py` pending, a flush whose read raises and a flush that succeeds
produce literally identical handler states — so no stored per-path failure
count can have been incremented by 1 on the failure while being reset to 0
on the success. -/
theorem claim2_failure_indistinguishable_from_success :
    fsUnreadable "/tmp/x.py" = Except.error "IOError" ∧
    fsSmallPy "/tmp/x.py" = Except.ok "print(1)\n" ∧
    process_batch fsUnreadable 100 ⟨["/tmp/x.py"], 0⟩ =
      process_batch fsSmallPy 100 ⟨["/tmp/x.py"], 0⟩ :=
  ⟨rfl, rfl, by decide⟩

/-- Claim C2 amended: the pipeline keeps no failure bookkeeping at all.  The
handler state consists of the pending set and the last-flush time only, and
the state after a flush is independent of any per-file outcome: every
pending path is removed and the timestamp is reset. -/
theorem claim2_no_failure_bookkeeping (fs : FS) (now : Int) (h : Handler) :
    process_batch fs now h = if h.pending_files = [] then h else ⟨[], now⟩ := by
  by_cases hp : h.pending_files = []
  · simp [process_batch, hp]
  · rw [if_neg hp]
    exact process_batch_clears fs now h hp

/-- Claim C3: `index_document` returns `True` on every input; its exception
branch is unreachable because chunking and the simulated submission loop are
total. -/
theorem claim3_index_document_always_true (filepath content : String)
    (metadata : DocumentMetadata) :
    index_document filepath content metadata = true := rfl

/-- Claim C5 counterexample: for `/tmp/A.PY` the derived `filetype` is
`"PY"` — the extension without the dot but NOT lower-cased, while the claim
requires the lower-cased `"py"`. -/
theorem claim5_filetype_not_lowercased :
    (fileMetadata "/tmp/A.PY" "x" 0).filetype = "PY" ∧
    specFiletype "/tmp/A.PY" = "py" ∧ ("PY" : String) ≠ "py" :=
  ⟨by decide, by decide, by decide⟩

/-- Claim C5 amended: `filetype` is the extension without the leading dot
with its original case preserved (or `"unknown"` for no extension); the
spec's lower-cased value is recovered exactly by lower-casing the code's
value. -/
theorem claim5_filetype_lowers_to_spec (filepath content : String) (now : Int) :
    (fileMetadata filepath content now).filetype = pyFiletype filepath ∧
    pyLower ((fileMetadata filepath content now).filetype) = specFiletype filepath := by
  refine ⟨rfl, ?_⟩
  show pyLower (pyFiletype filepath) = specFiletype filepath
  unfold pyFiletype specFiletype
  cases pySuffixChars (afterLastSlash filepath.data) with
  | nil => decide
  | cons c rest => rfl

/-- Claim C8: a batch flush is triggered on an event exactly when the event
has an accepted kind, survives the exclusion filter, and — after its path is
added — the pending count reaches `batch_size` or more than 5 seconds have
elapsed since `last_batch_time`; the timeout is only evaluated at this point
(there is no timer between events). -/
theorem claim8_flush_trigger_iff (cfg : IndexerConfig) (fs : FS) (now : Int)
    (h : Handler) (ev : Event) :
    (process_default cfg fs now h ev).2 = true ↔
      (ev.maskname ∈ acceptedMasks ∧
       should_ignore_file cfg ev.pathname = false ∧
       ((insertPath ev.pathname h.pending_files).length ≥ cfg.batch_size ∨
        now - h.last_batch_time > 5)) := by
  unfold process_default
  by_cases h1 : ev.maskname ∈ acceptedMasks
  · by_cases h2 : should_ignore_file cfg ev.pathname = true
    · simp [h1, h2]
    · by_cases h3 : (insertPath ev.pathname h.pending_files).length ≥ cfg.batch_size ∨
          now - h.last_batch_time > 5
      · simp [h1, h2, h3]
      · simp [h1, h2, h3]
  · simp [h1]

/-- Claim C9: in the structured-config strategy a new chunk starts exactly
at non-blank lines that begin with neither a space nor `#` (closing the
previous chunk first), and the concrete input
`"a: 1\n  nested: 2\n#comment\nb: 2\n"` yields exactly the two chunks
`["a: 1\n  nested: 2\n#comment", "b: 2"]`. -/
theorem claim9_config_chunk_boundaries :
    (∀ (st : List (List String) × List String) (line : String),
      configStep st line =
        if pyStrip line ≠ "" ∧ ¬ pyStartsWith line " " ∧ ¬ pyStartsWith line "#"
        then (if st.2 = [] then st.1 else st.1 ++ [st.2], [line])
        else (st.1, st.2 ++ [line])) ∧
    _chunk_config "a: 1\n  nested: 2\n#comment\nb: 2\n" =
      ["a: 1\n  nested: 2\n#comment", "b: 2"] :=
  ⟨fun st _ => by cases st; rfl, by decide⟩

/-- Claim C4 counterexample: `/tmp/ghost.py` is not readable on this
filesystem (every read raises), the event is of accepted kind and survives
the exclusion filter, yet its path IS added to the pending batch —
`process_default` performs no filesystem check at all. -/
theorem claim4_unreadable_path_still_added :
    fsUnreadable "/tmp/ghost.py" = Except.error "IOError" ∧
    process_default {} fsUnreadable 1 ⟨[], 0⟩ ⟨"IN_MODIFY", "/tmp/ghost.py"⟩
      = (⟨["/tmp/ghost.py"], 0⟩, false) :=
  ⟨rfl, by decide⟩

/-- Claim C4 amended: for every accepted event surviving the exclusion
filter the path is added to the pending batch unconditionally — the handler
never consults the filesystem at event time, so the outcome is identical for
readable and unreadable paths (and when no flush fires, the new pending set
is exactly the old one with the path inserted). -/
theorem claim4_path_added_regardless_of_readability (cfg : IndexerConfig)
    (fs fs' : FS) (now : Int) (h : Handler) (ev : Event)
    (hk : ev.maskname ∈ acceptedMasks)
    (hi : should_ignore_file cfg ev.pathname = false) :
    ((¬ ((insertPath ev.pathname h.pending_files).length ≥ cfg.batch_size ∨
         now - h.last_batch_time > 5)) →
      (process_default cfg fs now h ev).1.pending_files
        = insertPath ev.pathname h.pending_files) ∧
    process_default cfg fs now h ev = process_default cfg fs' now h ev := by
  constructor
  · intro hnf
    unfold process_default
    simp [hk, hi, hnf]
  · unfold process_default
    by_cases hf : (insertPath ev.pathname h.pending_files).length ≥ cfg.batch_size ∨
        now - h.last_batch_time > 5
    · have hne : insertPath ev.pathname h.pending_files ≠ [] := by
        unfold insertPath
        by_cases hm : ev.pathname ∈ h.pending_files
        · rw [if_pos hm]; exact List.ne_nil_of_mem hm
        · rw [if_neg hm]; simp
      simp only [hk, hi, hf]
      simp only [not_true_eq_false, if_false, Bool.false_eq_true, if_true]
      rw [process_batch_clears fs now _ hne, process_batch_clears fs' now _ hne]
    · simp [hk, hi, hf]

/-- Witness for the amended C4 at a concrete unreadable path. -/
theorem claim4_path_added_witness :
    (process_default {} fsUnreadable 1 ⟨[], 0⟩
        ⟨"IN_MODIFY", "/tmp/ghost.py"⟩).1.pending_files
      = insertPath "/tmp/ghost.py" [] ∧
    process_default {} fsUnreadable 1 ⟨[], 0⟩ ⟨"IN_MODIFY", "/tmp/ghost.py"⟩
      = process_default {} fsSmallPy 1 ⟨[], 0⟩ ⟨"IN_MODIFY", "/tmp/ghost.py"⟩ := by
  have h := claim4_path_added_regardless_of_readability {} fsUnreadable fsSmallPy 1
      ⟨[], 0⟩ ⟨"IN_MODIFY", "/tmp/ghost.py"⟩ (by decide) (by decide)
  exact ⟨h.1 (by decide), h.2⟩

/-- A blank line is appended to the current chunk and skips both the
boundary and the size check (`continue` in the source). -/
lemma codeStep_blank (st : List (List String) × List String) (line : String)
    (h : pyStrip line = "") : codeStep st line = (st.1, st.2 ++ [line]) := by
  obtain ⟨chunks, current⟩ := st
  simp [codeStep, h]

/-- For a non-blank line, one `_chunk_code` step keeps the current chunk at
most 50 lines long and only emits chunks of at most 51 lines. -/
lemma codeStep_bound (st : List (List String) × List String) (line : String)
    (hline : pyStrip line ≠ "")
    (hcur : st.2.length ≤ 50) (hall : ∀ g ∈ st.1, g.length ≤ 51) :
    (codeStep st line).2.length ≤ 50 ∧
    ∀ g ∈ (codeStep st line).1, g.length ≤ 51 := by
  obtain ⟨chunks, current⟩ := st
  simp only at hcur hall
  have hbody : codeStep (chunks, current) line =
      (let st' := if hasCodeKeyword (pyStrip line) then
          (if current = [] then chunks else chunks ++ [current], [line])
        else (chunks, current ++ [line])
       if st'.2.length > 50 then (st'.1 ++ [st'.2], []) else st') := by
    simp only [codeStep, if_neg hline]
  rw [hbody]
  by_cases hkw : hasCodeKeyword (pyStrip line) = true
  · rw [if_pos hkw]
    have h50 : ¬ (([line] : List String).length > 50) := by simp
    simp only [if_neg h50]
    refine ⟨by simp, ?_⟩
    by_cases hc : current = []
    · rw [if_pos hc]; exact hall
    · rw [if_neg hc]
      intro g hg
      rcases List.mem_append.mp hg with h1 | h1
      · exact hall g h1
      · rw [List.mem_singleton.mp h1]; omega
  · rw [if_neg hkw]
    by_cases hlen : ((current ++ [line]).length > 50)
    · simp only [if_pos hlen]
      refine ⟨by simp, ?_⟩
      intro g hg
      rcases List.mem_append.mp hg with h1 | h1
      · exact hall g h1
      · rw [List.mem_singleton.mp h1]
        simp only [List.length_append, List.length_singleton]
        omega
    · simp only [if_neg hlen]
      refine ⟨?_, hall⟩
      simp only [List.length_append, List.length_singleton] at hlen ⊢
      omega

/-- Folding `codeStep` over blank-free lines preserves the chunk bounds. -/
lemma codeFold_bound (lines : List String) :
    ∀ st : List (List String) × List String,
    (∀ line ∈ lines, pyStrip line ≠ "") →
    st.2.length ≤ 50 → (∀ g ∈ st.1, g.length ≤ 51) →
    (lines.foldl codeStep st).2.length ≤ 50 ∧
    ∀ g ∈ (lines.foldl codeStep st).1, g.length ≤ 51 := by
  induction lines with
  | nil => intro st _ h1 h2; exact ⟨h1, h2⟩
  | cons l ls ih =>
    intro st hl h1 h2
    simp only [List.foldl_cons]
    have hstep := codeStep_bound st l (hl l (List.mem_cons_self l ls)) h1 h2
    exact ih _ (fun x hx => hl x (List.mem_cons_of_mem l hx)) hstep.1 hstep.2

/-- Claim C6 counterexample: on an input whose 51st line is blank, the blank
line skips the size check (`continue`), so the chunk reaches 52 lines before
the force-close fires — the emitted chunk has 52 > 51 lines. -/
theorem claim6_blank_line_defeats_size_cap :
    _chunk_code chunkCodeCexContent ".py" = [chunkCodeCexContent] ∧
    (_chunk_code chunkCodeCexContent ".py").map (fun c => (pySplitlines c).length)
      = [52] :=
  ⟨by decide, by decide⟩

/-- Claim C6 amended: blank lines are always appended to the current chunk
without triggering a boundary AND without the size check, so the more-than-50
force-close only fires when a non-blank line is appended; consequently the
51-line bound on emitted chunks holds for inputs none of whose lines is
blank (and can be exceeded otherwise). -/
theorem claim6_size_cap_holds_without_blank_lines (content : String)
    (hnb : ∀ line ∈ pySplitlines content, pyStrip line ≠ "") :
    ((codeGroups (pySplitlines content)).all
        (fun g => decide (g.length ≤ 51))) = true ∧
    ∀ (st : List (List String) × List String) (line : String),
      pyStrip line = "" → codeStep st line = (st.1, st.2 ++ [line]) := by
  refine ⟨?_, fun st line h => codeStep_blank st line h⟩
  have h := codeFold_bound (pySplitlines content) ([], []) hnb (by simp) (by simp)
  rw [List.all_eq_true]
  intro g hg
  rw [decide_eq_true_eq]
  unfold codeGroups at hg
  by_cases hc : ((pySplitlines content).foldl codeStep ([], [])).2 = []
  · rw [if_pos hc] at hg
    exact h.2 g hg
  · rw [if_neg hc] at hg
    rcases List.mem_append.mp hg with h1 | h1
    · exact h.2 g h1
    · rw [List.mem_singleton.mp h1]
      omega

/-- Witness for the amended C6 on a concrete blank-free input. -/
theorem claim6_size_cap_witness :
    ((codeGroups (pySplitlines "a\nb")).all
        (fun g => decide (g.length ≤ 51))) = true :=
  (claim6_size_cap_holds_without_blank_lines "a\nb" (by decide)).1

/-- The greedy-pack branch of `semStep` that closes the current group. -/
lemma semStep_close (m : Nat) (chunks : List (List String)) (current : List String)
    (size : Nat) (para : String) (h : size + para.length > m ∧ current ≠ []) :
    semStep m (chunks, current, size) para
      = (chunks ++ [current], [para], para.length) := by
  simp [semStep, h]

/-- The greedy-pack branch of `semStep` that appends to the current group. -/
lemma semStep_app (m : Nat) (chunks : List (List String)) (current : List String)
    (size : Nat) (para : String) (h : ¬ (size + para.length > m ∧ current ≠ [])) :
    semStep m (chunks, current, size) para
      = (chunks, current ++ [para], size + para.length) := by
  simp only [semStep, if_neg h]

/-- One `semStep` preserves `SemInv` and conserves the paragraphs seen. -/
lemma semStep_inv (m : Nat) (st : List (List String) × List String × Nat)
    (para : String) (h : SemInv m st) :
    SemInv m (semStep m st para) ∧
    (semStep m st para).1.flatten ++ (semStep m st para).2.1
      = st.1.flatten ++ st.2.1 ++ [para] := by
  obtain ⟨chunks, current, size⟩ := st
  obtain ⟨hsz, hne, hpg, hcur⟩ := h
  simp only at hsz hne hpg hcur
  by_cases hcl : size + para.length > m ∧ current ≠ []
  · rw [semStep_close m chunks current size para hcl]
    refine ⟨⟨by simp, ?_, ?_, by simp⟩, ?_⟩
    · intro g hg
      rcases List.mem_append.mp hg with h1 | h1
      · exact hne g h1
      · rw [List.mem_singleton.mp h1]; exact hcl.2
    · intro g hg
      rcases List.mem_append.mp hg with h1 | h1
      · exact hpg g h1
      · rw [List.mem_singleton.mp h1]
        rcases hcur with h2 | h2
        · left
          have : current.length ≠ 0 := fun hc => hcl.2 (List.length_eq_zero.mp hc)
          omega
        · right; exact h2
    · simp [List.flatten_append, List.append_assoc]
  · rw [semStep_app m chunks current size para hcl]
    push_neg at hcl
    refine ⟨⟨by simp [hsz], hne, hpg, ?_⟩, by simp [List.append_assoc]⟩
    by_cases hc : current = []
    · left; simp [hc]
    · right
      have hle : size + para.length ≤ m := le_of_not_lt (fun hlt => hc (hcl hlt))
      simp only [List.map_append, List.map_cons, List.map_nil, List.sum_append,
        List.sum_cons, List.sum_nil]
      omega

/-- The `SemInv` and paragraph conservation for the whole greedy fold. -/
lemma semFold_inv (m : Nat) (paras : List String) :
    ∀ st : List (List String) × List String × Nat, SemInv m st →
    SemInv m (paras.foldl (semStep m) st) ∧
    (paras.foldl (semStep m) st).1.flatten ++ (paras.foldl (semStep m) st).2.1
      = st.1.flatten ++ st.2.1 ++ paras := by
  induction paras with
  | nil => intro st h; exact ⟨h, by simp⟩
  | cons p ps ih =>
    intro st h
    simp only [List.foldl_cons]
    have hstep := semStep_inv m st p h
    have hrest := ih (semStep m st p) hstep.1
    refine ⟨hrest.1, ?_⟩
    rw [hrest.2, hstep.2]
    simp [List.append_assoc]

/-- The groups produced by `packParas` partition the paragraph list in
order, are non-empty, and each is a single paragraph or sums to at most the
threshold. -/
lemma packParas_spec (m : Nat) (paras : List String) :
    (packParas m paras).flatten = paras ∧
    (∀ g ∈ packParas m paras, g ≠ []) ∧
    (∀ g ∈ packParas m paras, g.length = 1 ∨ (g.map String.length).sum ≤ m) := by
  have h := semFold_inv m paras ([], [], 0) ⟨rfl, by simp, by simp, by simp⟩
  obtain ⟨⟨hsz, hne, hpg, hcur⟩, hflat⟩ := h
  simp only [List.flatten_nil, List.nil_append] at hflat
  unfold packParas
  by_cases hc : (paras.foldl (semStep m) ([], [], 0)).2.1 = []
  · rw [if_pos hc]
    rw [hc, List.append_nil] at hflat
    exact ⟨hflat, hne, hpg⟩
  · rw [if_neg hc]
    refine ⟨?_, ?_, ?_⟩
    · simp only [List.flatten_append, List.flatten_cons, List.flatten_nil,
        List.append_nil]
      exact hflat
    · intro g hg
      rcases List.mem_append.mp hg with h1 | h1
      · exact hne g h1
      · rw [List.mem_singleton.mp h1]; exact hc
    · intro g hg
      rcases List.mem_append.mp hg with h1 | h1
      · exact hpg g h1
      · rw [List.mem_singleton.mp h1]
        rcases hcur with h2 | h2
        · left
          have : (paras.foldl (semStep m) ([], [], 0)).2.1.length ≠ 0 :=
            fun hz => hc (List.length_eq_zero.mp hz)
          omega
        · right; exact h2

/-- Splitting on `"\n\n"` walks through a block of non-newline characters,
prepending it to the first group of the remainder. -/
lemma splitParChars_replicate (c : Char) (hc : c ≠ '\n') (cs : List Char)
    (g : List Char) (gs : List (List Char)) (hg : splitParChars cs = g :: gs) :
    ∀ n, splitParChars (List.replicate n c ++ cs) = (List.replicate n c ++ g) :: gs := by
  intro n
  induction n with
  | zero => simpa using hg
  | succ k ih =>
    rw [List.replicate_succ, List.cons_append, List.cons_append]
    rw [splitParChars.eq_3 c _ (fun _ h _ => hc h)]
    rw [ih]

/-- Claim C7 counterexample: a 2001-character content made of two paragraphs
of 999 and 1000 characters is longer than the 2000-character threshold yet
yields exactly ONE chunk (the whole content, of 2001 > 2000 characters) —
not the claimed at-least-2 chunks, and the oversized chunk is not a single
oversized paragraph.  The greedy loop counts only paragraph lengths
(999 + 1000 = 1999 ≤ 2000), ignoring the 2-character separator restored on
join. -/
theorem claim7_threshold_ignores_separators :
    semCexContent.length = 2001 ∧
    (pySplitPar semCexContent).map String.length = [999, 1000] ∧
    _chunk_semantic semCexContent 2000 = [semCexContent] := by
  have hdata : semCexContent.data
      = List.replicate 999 'a' ++ ('\n' :: '\n' :: List.replicate 1000 'b') := by
    show (List.replicate 999 'a' ++ ['\n', '\n']) ++ List.replicate 1000 'b'
        = List.replicate 999 'a' ++ ('\n' :: '\n' :: List.replicate 1000 'b')
    rw [List.append_assoc, List.cons_append, List.cons_append, List.nil_append]
  have hlen : semCexContent.length = 2001 := by
    show semCexContent.data.length = 2001
    rw [hdata]
    simp only [List.length_append, List.length_cons, List.length_replicate]
  have h1 : splitParChars (List.replicate 1000 'b') = [List.replicate 1000 'b'] := by
    have h := splitParChars_replicate 'b' (by decide) [] [] [] rfl 1000
    simpa only [List.append_nil] using h
  have h2 : splitParChars ('\n' :: '\n' :: List.replicate 1000 'b')
      = [] :: [List.replicate 1000 'b'] := by
    rw [splitParChars.eq_2, h1]
  have h3 : splitParChars semCexContent.data
      = [List.replicate 999 'a', List.replicate 1000 'b'] := by
    rw [hdata]
    have h := splitParChars_replicate 'a' (by decide) _ _ _ h2 999
    simpa only [List.append_nil] using h
  have hsplit : pySplitPar semCexContent
      = [String.mk (List.replicate 999 'a'), String.mk (List.replicate 1000 'b')] := by
    unfold pySplitPar
    rw [h3]
    rfl
  have hp1 : (String.mk (List.replicate 999 'a')).length = 999 := by
    show (List.replicate 999 'a').length = 999
    rw [List.length_replicate]
  have hp2 : (String.mk (List.replicate 1000 'b')).length = 1000 := by
    show (List.replicate 1000 'b').length = 1000
    rw [List.length_replicate]
  refine ⟨hlen, ?_, ?_⟩
  · rw [hsplit]
    show [(String.mk (List.replicate 999 'a')).length,
          (String.mk (List.replicate 1000 'b')).length] = [999, 1000]
    rw [hp1, hp2]
  · have hs1 : semStep 2000 ([], [], 0) (String.mk (List.replicate 999 'a'))
        = ([], [String.mk (List.replicate 999 'a')], 999) := by
      rw [semStep_app 2000 [] [] 0 _ (fun h => h.2 rfl)]
      rw [List.nil_append, Nat.zero_add, hp1]
    have hs2 : semStep 2000 ([], [String.mk (List.replicate 999 'a')], 999)
          (String.mk (List.replicate 1000 'b'))
        = ([], [String.mk (List.replicate 999 'a'),
                String.mk (List.replicate 1000 'b')], 1999) := by
      rw [semStep_app 2000 [] [String.mk (List.replicate 999 'a')] 999 _
        (fun hcon => absurd (hp2 ▸ hcon.1) (by omega))]
      rw [hp2, List.singleton_append]
    have hfold : List.foldl (semStep 2000) ([], [], 0)
        [String.mk (List.replicate 999 'a'), String.mk (List.replicate 1000 'b')]
        = ([], [String.mk (List.replicate 999 'a'),
                String.mk (List.replicate 1000 'b')], 1999) := by
      rw [List.foldl_cons, hs1, List.foldl_cons, hs2, List.foldl_nil]
    have hpack : packParas 2000
        [String.mk (List.replicate 999 'a'), String.mk (List.replicate 1000 'b')]
        = [[String.mk (List.replicate 999 'a'), String.mk (List.replicate 1000 'b')]] := by
      show (if (List.foldl (semStep 2000) ([], [], 0)
              [String.mk (List.replicate 999 'a'),
               String.mk (List.replicate 1000 'b')]).2.1 = []
            then (List.foldl (semStep 2000) ([], [], 0)
              [String.mk (List.replicate 999 'a'),
               String.mk (List.replicate 1000 'b')]).1
            else (List.foldl (semStep 2000) ([], [], 0)
                [String.mk (List.replicate 999 'a'),
                 String.mk (List.replicate 1000 'b')]).1
              ++ [(List.foldl (semStep 2000) ([], [], 0)
                [String.mk (List.replicate 999 'a'),
                 String.mk (List.replicate 1000 'b')]).2.1])
          = [[String.mk (List.replicate 999 'a'), String.mk (List.replicate 1000 'b')]]
      rw [hfold]
      rw [if_neg (List.cons_ne_nil _ _)]
      rfl
    unfold _chunk_semantic
    rw [if_neg (by rw [hlen]; omega)]
    rw [hsplit, hpack]
    rfl

/-- Claim C7 amended: content of at most 2000 characters yields the single
chunk equal to the content; longer content is split on blank-line paragraphs
and greedily packed counting only the paragraphs' own lengths (not the
re-inserted separators), so every packed group is a single paragraph or has
paragraph lengths summing to at most 2000 — but the result may be a single
chunk and a chunk's literal length may exceed 2000 by the separator
overhead. -/
theorem claim7_generic_text_packing (content : String) :
    (content.length ≤ 2000 → _chunk_semantic content 2000 = [content]) ∧
    (2000 < content.length → _chunk_semantic content 2000
      = (packParas 2000 (pySplitPar content)).map (joinSep "\n\n")) ∧
    ∀ g ∈ packParas 2000 (pySplitPar content),
      g.length = 1 ∨ (g.map String.length).sum ≤ 2000 := by
  refine ⟨?_, ?_, (packParas_spec 2000 (pySplitPar content)).2.2⟩
  · intro hle
    unfold _chunk_semantic
    rw [if_pos hle]
  · intro hgt
    unfold _chunk_semantic
    rw [if_neg (by omega)]

/-- Witness for the amended C7 at a concrete short content. -/
theorem claim7_generic_text_witness :
    _chunk_semantic "hello" 2000 = ["hello"] :=
  (claim7_generic_text_packing "hello").1 (by decide)

/-- The `splitParChars` always yields at least one (possibly empty) group, as
Python `str.split` does. -/
lemma splitParChars_ne_nil (cs : List Char) : splitParChars cs ≠ [] := by
  rw [splitParChars.eq_def]
  split
  · simp
  · simp
  · split <;> simp

/-- Rejoining the groups of `splitParChars` with the separator restores the
original character list. -/
lemma joinPar_splitPar (cs : List Char) : joinParChars (splitParChars cs) = cs := by
  induction cs using splitParChars.induct with
  | case1 => rfl
  | case2 rest ih =>
    rw [splitParChars.eq_2]
    obtain ⟨g, gs, hg⟩ : ∃ g gs, splitParChars rest = g :: gs := by
      cases h : splitParChars rest with
      | nil => exact absurd h (splitParChars_ne_nil rest)
      | cons g gs => exact ⟨g, gs, rfl⟩
    rw [hg] at ih ⊢
    show ([] : List Char) ++ '\n' :: '\n' :: joinParChars (g :: gs) = '\n' :: '\n' :: rest
    rw [List.nil_append, ih]
  | case3 c rest hside hnil ih => exact absurd hnil (splitParChars_ne_nil rest)
  | case4 c rest hside g gs hg ih =>
    rw [splitParChars.eq_3 c rest hside, hg]
    rw [hg] at ih
    cases gs with
    | nil =>
      show c :: g = c :: rest
      have hjoin : joinParChars [g] = g := rfl
      rw [hjoin] at ih
      rw [ih]
    | cons g' gs' =>
      show (c :: g) ++ '\n' :: '\n' :: joinParChars (g' :: gs') = c :: rest
      have hjoin : joinParChars (g :: g' :: gs')
          = g ++ '\n' :: '\n' :: joinParChars (g' :: gs') := rfl
      rw [hjoin] at ih
      rw [List.cons_append, ih]

/-- The `joinSep "\n\n"` over strings mirrors the char-level paragraph join. -/
lemma joinSep_mk (gs : List (List Char)) :
    joinSep "\n\n" (gs.map String.mk) = String.mk (joinParChars gs) := by
  induction gs with
  | nil => rfl
  | cons g gs ih =>
    cases gs with
    | nil => rfl
    | cons g' gs' =>
      show String.mk g ++ "\n\n" ++ joinSep "\n\n" ((g' :: gs').map String.mk)
          = String.mk (g ++ '\n' :: '\n' :: joinParChars (g' :: gs'))
      rw [ih]
      show String.mk ((g ++ ['\n', '\n']) ++ joinParChars (g' :: gs'))
          = String.mk (g ++ '\n' :: '\n' :: joinParChars (g' :: gs'))
      rw [List.append_assoc, List.cons_append, List.cons_append, List.nil_append]

/-- Python `'\n\n'.join` is a left inverse of `content.split('\n\n')`. -/
lemma joinSep_pySplitPar (s : String) : joinSep "\n\n" (pySplitPar s) = s := by
  unfold pySplitPar
  rw [joinSep_mk, joinPar_splitPar]

/-- The `joinSep` distributes over an append of two non-empty lists. -/
lemma joinSep_append (sep : String) (a b : List String) (ha : a ≠ []) (hb : b ≠ []) :
    joinSep sep (a ++ b) = joinSep sep a ++ sep ++ joinSep sep b := by
  induction a with
  | nil => exact absurd rfl ha
  | cons x xs ih =>
    cases xs with
    | nil =>
      cases b with
      | nil => exact absurd rfl hb
      | cons y ys => rfl
    | cons x' xs' =>
      show x ++ sep ++ joinSep sep (x' :: xs' ++ b)
          = (x ++ sep ++ joinSep sep (x' :: xs')) ++ sep ++ joinSep sep b
      rw [ih (List.cons_ne_nil x' xs')]
      simp only [String.append_assoc]

/-- Joining the per-group joins of non-empty groups equals joining the
flattened group list. -/
lemma joinSep_flatten (sep : String) (gs : List (List String))
    (h : ∀ g ∈ gs, g ≠ []) :
    joinSep sep (gs.map (joinSep sep)) = joinSep sep gs.flatten := by
  induction gs with
  | nil => rfl
  | cons g gs ih =>
    cases gs with
    | nil =>
      show joinSep sep [joinSep sep g] = joinSep sep (g ++ [])
      rw [List.append_nil]
      rfl
    | cons g' gs' =>
      have hg : g ≠ [] := h g (List.mem_cons_self g _)
      have hflat : (g' :: gs').flatten ≠ [] := by
        have hg' : g' ≠ [] := h g' (List.mem_cons_of_mem g (List.mem_cons_self g' _))
        cases g' with
        | nil => exact absurd rfl hg'
        | cons y ys => simp [List.flatten_cons]
      show joinSep sep g ++ sep ++ joinSep sep ((g' :: gs').map (joinSep sep))
          = joinSep sep ((g :: g' :: gs').flatten)
      rw [ih (fun x hx => h x (List.mem_cons_of_mem g hx))]
      conv_rhs => rw [List.flatten_cons]
      rw [joinSep_append sep g (g' :: gs').flatten hg hflat]

/-- Claim C10: the generic-text strategy is lossless — for every content and
threshold, rejoining the chunks of `_chunk_semantic` with the paragraph
separator reconstructs the content exactly (no chunk is dropped and the
groups partition the paragraph list in order). -/
theorem claim10_semantic_chunking_lossless (content : String) (max_size : Nat) :
    joinSep "\n\n" (_chunk_semantic content max_size) = content := by
  unfold _chunk_semantic
  by_cases hlen : content.length ≤ max_size
  · rw [if_pos hlen]
    rfl
  · rw [if_neg hlen]
    obtain ⟨hflat, hne, _⟩ := packParas_spec max_size (pySplitPar content)
    rw [joinSep_flatten "\n\n" _ hne, hflat, joinSep_pySplitPar]
